import Mathlib

/-!
Verification of the follower-side synchronization engine of pyOmxSync
(`src/omxsync/receiver.py`).

The `Receiver.update` method (one tick of the control loop) and its helpers
`_receive_data`, `_calculate_median`, `_perform_small_sync`,
`_reset_small_sync` and `_perform_big_sync` are embedded as pure Lean
functions.  Python floats are modelled as rationals (`ℚ`); every arithmetic
operation the code performs (`+`, `-`, `/ 2`, comparisons, `abs`) is exact,
so no claim below depends on floating-point rounding.  Mutation of the
`Receiver` object becomes explicit state passing; commands sent to the
player object become a list of `Effect` values, emitted in call order.
An uncaught Python exception is modelled by the `Outcome.crashed` result,
carrying the state mutations and player commands that happened before the
raise, exactly as they would have in Python.  Text from the wire is
modelled as `List Char` (the decoded UTF-8 code points).
-/

namespace OmxSync

/-- Commands the engine sends to the player object, plus the one observable
report (the unconditional `print` on a duration mismatch). `action 1` is the
slow-down command, `action 2` the speed-up command, as used by the source. -/
inductive Effect where
  | play
  | pause
  | playPause
  | setPosition (pos : ℚ)
  | action (n : ℕ)
  | reportMismatch
deriving DecidableEq, Repr

/-- Python exception kinds that can escape `update`. -/
inductive PyErr where
  | valueError
  | typeError
deriving DecidableEq, Repr

/-- Which exit of `Receiver.update` a tick took: one tag per `return`
statement (in source order), plus `crashed` for an uncaught exception and
`synced` for falling through to the final correction step. -/
inductive Outcome where
  | noLocalPos
  | noLocalStatus
  | stillPaused
  | noData
  | crashed (e : PyErr)
  | leaderPaused
  | durationMismatch
  | nearStart
  | nearEnd
  | withinTolerance
  | inGrace
  | synced
deriving DecidableEq, Repr

/-- Result of the non-blocking `socket.recv(1024).decode('utf-8')` pair:
no datagram pending (recv raises), undecodable bytes (decode raises), or
the decoded text. -/
inductive RecvResult where
  | nothingPending
  | decodeFailure
  | text (cs : List Char)
deriving DecidableEq, Repr

/-- The tunable options read in `Receiver.__init__`. -/
structure Config where
  big_tolerance : ℚ
  tolerance : ℚ
  grace_time : ℚ
  jump_ahead : ℚ
deriving DecidableEq, Repr

/-- Defaults: `DEFAULT_BIG_TOLERANCE = 2`, `DEFAULT_TOLERANCE = .05`,
`DEFAULT_GRACE_TIME = 3`, `DEFAULT_JUMP_AHEAD = 3`. -/
def defaultConfig : Config :=
  { big_tolerance := 2, tolerance := 1/20, grace_time := 3, jump_ahead := 3 }

/-- The mutable instance attributes of `Receiver` (its SyncState). -/
structure Receiver where
  received_position : Option ℚ
  received_duration : Option ℚ
  received_status : Option (List Char)
  last_measure_time : ℚ
  paused_until : Option ℚ
  dont_sync_until : ℚ
  deviation : ℚ
  deviations : List ℚ
  median_deviation : ℚ
  duration_match : Option Bool
  rate : ℤ
deriving DecidableEq, Repr

/-- The attribute values set in `Receiver.__init__`. -/
def initReceiver : Receiver :=
  { received_position := none
    received_duration := none
    received_status := none
    last_measure_time := 0
    paused_until := none
    dont_sync_until := 0
    deviation := 0
    deviations := []
    median_deviation := 0
    duration_match := none
    rate := 1 }

/-- The string `'Paused'`. -/
def pausedStr : List Char := ['P', 'a', 'u', 's', 'e', 'd']

/-- The string `'Playing'`. -/
def playingStr : List Char := ['P', 'l', 'a', 'y', 'i', 'n', 'g']

/-- Split a char list at the first occurrence of `delim`; `none` when the
delimiter does not occur. -/
def splitFirst (delim : Char) : List Char → Option (List Char × List Char)
  | [] => none
  | x :: xs =>
    if x = delim then some ([], xs)
    else
      match splitFirst delim xs with
      | none => none
      | some (a, b) => some (x :: a, b)

/-- Model of `Receiver._receive_data`: `self.socket.recv(1024).decode('utf-8')
.split('%', 2)` unpacked into exactly three names, with every exception
caught and turned into `None`.  `split('%', 2)` yields three parts exactly
when the text contains at least two `'%'`; the third part keeps any further
`'%'` characters.  Fewer parts make the unpacking raise `ValueError`,
which the bare `except` turns into `None`, as it does the `recv` and
`decode` failures. -/
def receive_data : RecvResult → Option (List Char × List Char × List Char)
  | .nothingPending => none
  | .decodeFailure => none
  | .text cs =>
    match splitFirst '%' cs with
    | none => none
    | some (a, rest) =>
      match splitFirst '%' rest with
      | none => none
      | some (b, c) => some (a, b, c)

/-- Value of a digit string, most significant first. -/
def digitsVal (cs : List Char) : ℕ :=
  cs.foldl (fun a c => 10 * a + (c.toNat - 48)) 0

/-- Models Python `float()` on plain decimal literals: optional sign,
digits, optional `.` and fraction digits (at least one digit overall).
Exponent forms, `inf`/`nan` and surrounding whitespace, which Python also
accepts, are not modelled; no claim below feeds such a string. Any other
text makes Python `float()` raise `ValueError`, modelled as `none`. -/
def pyFloat (cs : List Char) : Option ℚ :=
  let signRest : ℚ × List Char :=
    match cs with
    | '-' :: r => (-1, r)
    | '+' :: r => (1, r)
    | _ => (1, cs)
  let ip := signRest.2.takeWhile Char.isDigit
  let rest := signRest.2.dropWhile Char.isDigit
  match rest with
  | [] => if ip.isEmpty then none else some (signRest.1 * digitsVal ip)
  | '.' :: fr =>
    if fr.all Char.isDigit && !(ip.isEmpty && fr.isEmpty) then
      some (signRest.1 * ((digitsVal ip : ℚ) + (digitsVal fr : ℚ) / (10 : ℚ) ^ fr.length))
    else none
  | _ => none

/-- Model of `collections.deque(maxlen=10).append`: append at the right, discarding
from the left beyond capacity 10. -/
def pushDeque (l : List ℚ) (x : ℚ) : List ℚ :=
  let m := l ++ [x]
  m.drop (m.length - 10)

/-- Model of `Receiver._calculate_median`: `divmod(len(lst), 2)`, then for odd
length `sorted(lst)[quotient]`, for even length
`sum(sorted(lst)[quotient - 1:quotient + 1]) / 2.0`.  The slice is
modelled with `drop`/`take` (Python's clamping slice on a sorted nonempty
list of even length always has `quotient ≥ 1`, where the two agree). -/
def calculate_median (lst : List ℚ) : ℚ :=
  let s := List.insertionSort (fun x y => x ≤ y) lst
  let q := lst.length / 2
  if lst.length % 2 ≠ 0 then s.getD q 0
  else ((s.drop (q - 1)).take 2).sum / 2

/-- The median as the specification words it: middle element of the sorted
list for odd length, arithmetic mean of the two central elements for even
length. -/
def specMedian (lst : List ℚ) : ℚ :=
  let s := List.insertionSort (fun x y => x ≤ y) lst
  let n := lst.length
  if n % 2 = 1 then s.getD (n / 2) 0
  else (s.getD (n / 2 - 1) 0 + s.getD (n / 2) 0) / 2

/-- Model of `Receiver._perform_small_sync`: one-step rate nudge driven by the raw
`self.deviation`, bounded to `[0, 2]`; returns the new `self.rate` and the
player commands issued. -/
def perform_small_sync (deviation : ℚ) (rate : ℤ) : ℤ × List Effect :=
  if deviation < 0 ∧ rate > 0 then (rate - 1, [Effect.action 1])
  else if deviation > 0 ∧ rate < 2 then (rate + 1, [Effect.action 2])
  else (rate, [])

/-- Model of `Receiver._reset_small_sync`: issue the inverse command when at 2 or 0,
then set `self.rate = 1` unconditionally. -/
def reset_small_sync (rate : ℤ) : ℤ × List Effect :=
  if rate = 2 then (1, [Effect.action 1])
  else if rate = 0 then (1, [Effect.action 2])
  else (1, [])

/-- Model of `Receiver._perform_big_sync`, with the instance fields it reads
(`self.deviation`, `self.received_position`, `self.last_measure_time`,
`self.jump_ahead`) passed explicitly; returns the new `self.paused_until`
and the player commands in call order. -/
def perform_big_sync (jump_ahead deviation received_position last_measure_time : ℚ) :
    Option ℚ × List Effect :=
  if deviation < 0 ∧ |deviation| < jump_ahead then
    (some (last_measure_time - deviation), [Effect.pause])
  else
    (some (last_measure_time + jump_ahead),
      [Effect.pause, Effect.setPosition (received_position + jump_ahead)])

/-- Python truthiness of `self.paused_until` in `if self.paused_until:`:
`None` and `0.0` are falsy, every other float truthy. -/
def pausedTruthy (st : Receiver) : Bool :=
  match st.paused_until with
  | none => false
  | some t => decide (t ≠ 0)

/-- The tick is still inside the catch-up pause: `self.paused_until` is
truthy and `self.last_measure_time < self.paused_until` (the `getD` is only
reached when `paused_until` is `some`). -/
def pausedWaiting (st : Receiver) (now : ℚ) : Bool :=
  pausedTruthy st && decide (now < st.paused_until.getD 0)

/-- The resume half of the `if self.paused_until:` block, reached when the
wait is over (or the truthiness test failed, in which case it is the
identity): clear `paused_until`, call `self.player.play()`, set
`dont_sync_until = last_measure_time + grace_time`. -/
def resume_step (cfg : Config) (st : Receiver) (now : ℚ) : Receiver × List Effect :=
  if pausedTruthy st then
    ({ st with paused_until := none, dont_sync_until := now + cfg.grace_time },
      [Effect.play])
  else (st, [])

/-- The tail of `Receiver.update` from `self.deviations.append(...)` to the
end.  `p` and `d` are the values of `self.received_position` and
`self.received_duration`, both assigned `some` earlier in this tick;
`now` is `self.last_measure_time`, also assigned earlier in this tick. -/
def sync_step (cfg : Config) (st : Receiver) (now local_pos p d : ℚ)
    (effs : List Effect) : Receiver × List Effect × Outcome :=
  let devs := pushDeque st.deviations st.deviation
  let st1 := { st with deviations := devs, median_deviation := calculate_median devs }
  if p ≤ cfg.grace_time then (st1, effs, .nearStart)
  else if d - local_pos < cfg.grace_time then
    if st1.rate ≠ 1 then
      ({ st1 with rate := (reset_small_sync st1.rate).1 },
        effs ++ (reset_small_sync st1.rate).2, .nearEnd)
    else (st1, effs, .nearEnd)
  else if |st1.median_deviation| ≤ cfg.tolerance then
    if st1.rate ≠ 1 then
      ({ st1 with rate := (reset_small_sync st1.rate).1 },
        effs ++ (reset_small_sync st1.rate).2, .withinTolerance)
    else (st1, effs, .withinTolerance)
  else if now < st1.dont_sync_until then (st1, effs, .inGrace)
  else
    ({ st1 with
        deviations := ([] : List ℚ)
        rate := (perform_small_sync st1.deviation st1.rate).1 },
      effs ++ (perform_small_sync st1.deviation st1.rate).2, .synced)

/-- The middle of `Receiver.update` from `self.received_position =
float(data[0])` onward, given the three raw fields `a`, `b`, `c` of the
datagram.  `float(data[0])` and `float(data[1])` sit outside any
`try`/`except`, so a failed parse is an uncaught `ValueError`; state
assigned before the raise is kept, as in Python.  `pd?` is what
`self.player.duration()` returns; `float(None)` is an uncaught
`TypeError`. -/
def handle_sample (cfg : Config) (st : Receiver) (now local_pos : ℚ)
    (local_status : List Char) (a b c : List Char) (pd? : Option ℚ)
    (effs : List Effect) : Receiver × List Effect × Outcome :=
  match pyFloat a with
  | none => (st, effs, .crashed .valueError)
  | some p =>
    let st1 := { st with received_position := some p }
    match pyFloat b with
    | none => (st1, effs, .crashed .valueError)
    | some d =>
      let st2 := { st1 with received_duration := some d, received_status := some c }
      let effs1 := effs ++ (if local_status ≠ c then [Effect.playPause] else [])
      if c = pausedStr then (st2, effs1, .leaderPaused)
      else
        let st3 := { st2 with deviation := p - local_pos }
        match st3.duration_match with
        | some _ => sync_step cfg st3 now local_pos p d effs1
        | none =>
          match pd? with
          | none => (st3, effs1, .crashed .typeError)
          | some pd =>
            if ¬ d = pd then (st3, effs1 ++ [Effect.reportMismatch], .durationMismatch)
            else
              sync_step cfg { st3 with duration_match := some true } now local_pos p d effs1

/-- Model of `Receiver.update`, one tick of the control loop.  Inputs: the current
wall-clock time `now` (what `time()` returns this tick), the datagram
receive result, and the player reads `self.player.position()`,
`self.player.playback_status()` and `self.player.duration()` (the last
read lazily, only at the duration check).  Returns the mutated state, the
player commands issued in order, and the exit taken. -/
def update (cfg : Config) (st : Receiver) (now : ℚ) (recv : RecvResult)
    (local_pos? : Option ℚ) (local_status? : Option (List Char)) (pd? : Option ℚ) :
    Receiver × List Effect × Outcome :=
  let data := receive_data recv
  match local_pos?, local_status? with
  | none, _ => (st, [], .noLocalPos)
  | some _, none => (st, [], .noLocalStatus)
  | some local_pos, some local_status =>
    let st1 := { st with last_measure_time := now }
    if pausedWaiting st1 now then (st1, [], .stillPaused)
    else
      let st2 := (resume_step cfg st1 now).1
      let effs0 := (resume_step cfg st1 now).2
      match data with
      | none => (st2, effs0, .noData)
      | some (a, b, c) =>
        handle_sample cfg st2 now local_pos local_status a b c pd? effs0

/-- The datagram text `10%100%Playing`. -/
def dgramPlaying : List Char :=
  ['1', '0', '%', '1', '0', '0', '%', 'P', 'l', 'a', 'y', 'i', 'n', 'g']

/-- The datagram text `10%100%Paused`. -/
def dgramPaused : List Char :=
  ['1', '0', '%', '1', '0', '0', '%', 'P', 'a', 'u', 's', 'e', 'd']

/-- The datagram text `abc%100%Playing`: correct field count and fine as
UTF-8, but a non-numeric position field. -/
def dgramBadPos : List Char :=
  ['a', 'b', 'c', '%', '1', '0', '0', '%', 'P', 'l', 'a', 'y', 'i', 'n', 'g']

section Claims

/- The Batteries `Rat` arithmetic operations are `@[irreducible]`, which
only affects elaboration, not the kernel; restore reducibility locally so
that concrete runs of the embedding evaluate by `decide` / `rfl`. -/
attribute [local semireducible] Rat.mul Rat.add Rat.sub Rat.inv

/-- Two consecutive elements of a list as a `drop`/`take` slice. -/
lemma dropTakeTwo : ∀ (xs : List ℚ) (i : ℕ), i + 1 < xs.length →
    (xs.drop i).take 2 = [xs.getD i 0, xs.getD (i + 1) 0]
  | [], i, h => by simp at h
  | x :: xs, 0, h => by
    cases xs with
    | nil => simp at h
    | cons y ys => simp [List.take, List.getD]
  | x :: xs, i + 1, h => by
    have hlt : i + 1 < xs.length := by simpa [Nat.succ_lt_succ_iff] using h
    simpa [List.getD] using dropTakeTwo xs i hlt

/-- C4: for every non-empty list of deviations, `_calculate_median` equals
the median as the spec words it: for odd length the element at index
`n / 2` of the sorted list, for even length the arithmetic mean of the two
central elements of the sorted list. -/
theorem c4_median_eq_spec (l : List ℚ) (h : l ≠ []) :
    calculate_median l = specMedian l := by
  unfold calculate_median specMedian
  have hlen : (List.insertionSort (fun x y => x ≤ y) l).length = l.length :=
    List.length_insertionSort _ _
  have hpos : 0 < l.length := List.length_pos.mpr h
  rcases Nat.even_or_odd l.length with he | ho
  · have h2 : l.length % 2 = 0 := Nat.even_iff.mp he
    have hge : 2 ≤ l.length := by omega
    have hq1 : 1 ≤ l.length / 2 := by omega
    have hik : l.length / 2 - 1 + 1 < (List.insertionSort (fun x y => x ≤ y) l).length := by
      rw [hlen]; omega
    rw [if_neg (by omega), if_neg (by omega),
      dropTakeTwo _ _ hik]
    have : l.length / 2 - 1 + 1 = l.length / 2 := by omega
    rw [this]
    simp
  · have h1 : l.length % 2 = 1 := Nat.odd_iff.mp ho
    rw [if_pos (by omega), if_pos h1]

/-- C4 witness: the spec's own example `[1,2,3,4] → 2.5`. -/
theorem c4_median_witness :
    calculate_median [1, 2, 3, 4] = specMedian [1, 2, 3, 4] ∧
    calculate_median [1, 2, 3, 4] = 5/2 :=
  ⟨c4_median_eq_spec [1, 2, 3, 4] (by decide), by decide⟩

/-- C5: `_perform_big_sync` with the follower ahead (deviation < 0) by less
than `jump_ahead` pauses, sets `paused_until = last_measure_time −
deviation` and issues no seek; otherwise (follower behind, or ahead by
`jump_ahead` or more) it pauses, seeks to `received_position + jump_ahead`
and sets `paused_until = last_measure_time + jump_ahead`. -/
theorem c5_big_sync (ja dev pos t : ℚ) :
    (dev < 0 → -dev < ja →
      perform_big_sync ja dev pos t = (some (t - dev), [Effect.pause])) ∧
    (0 ≤ dev ∨ ja ≤ -dev →
      perform_big_sync ja dev pos t
        = (some (t + ja), [Effect.pause, Effect.setPosition (pos + ja)])) := by
  unfold perform_big_sync
  constructor
  · intro h1 h2
    rw [if_pos ⟨h1, by rwa [abs_of_neg h1]⟩]
  · intro h
    rw [if_neg]
    rintro ⟨hneg, habs⟩
    rw [abs_of_neg hneg] at habs
    rcases h with h | h
    · exact absurd hneg (not_lt.mpr h)
    · exact absurd habs (not_lt.mpr h)

/-- C5 witness: the spec's examples, deviation −1.5 with `jump_ahead` 3
(pause only, deadline `now + 1.5`) and deviation +5 (seek to leader
position + 3, pause 3 s). -/
theorem c5_big_sync_witness :
    perform_big_sync 3 (-(3/2)) 10 100 = (some (100 - -(3/2)), [Effect.pause]) ∧
    perform_big_sync 3 5 10 100
      = (some (100 + 3), [Effect.pause, Effect.setPosition (10 + 3)]) :=
  ⟨(c5_big_sync 3 (-(3/2)) 10 100).1 (by decide) (by decide),
    (c5_big_sync 3 5 10 100).2 (Or.inl (by decide))⟩

/-- C6: from a rate level in `{0,1,2}`, both `_perform_small_sync` and
`_reset_small_sync` keep the level in `{0,1,2}` and move it by at most one
step; the small sync issues a command exactly when the level moves, and at
the bound in the needed direction (0 when ahead, 2 when behind) it issues
no command and leaves the level unchanged. -/
theorem c6_rate_invariant (dev : ℚ) (rate : ℤ) (h0 : 0 ≤ rate) (h2 : rate ≤ 2) :
    (0 ≤ (perform_small_sync dev rate).1 ∧ (perform_small_sync dev rate).1 ≤ 2) ∧
    |(perform_small_sync dev rate).1 - rate| ≤ 1 ∧
    (0 ≤ (reset_small_sync rate).1 ∧ (reset_small_sync rate).1 ≤ 2 ∧
      |(reset_small_sync rate).1 - rate| ≤ 1) ∧
    ((perform_small_sync dev rate).2 = [] ↔ (perform_small_sync dev rate).1 = rate) ∧
    (dev < 0 → rate = 0 → perform_small_sync dev rate = (rate, [])) ∧
    (0 < dev → rate = 2 → perform_small_sync dev rate = (rate, [])) := by
  have hreset : 0 ≤ (reset_small_sync rate).1 ∧ (reset_small_sync rate).1 ≤ 2 ∧
      |(reset_small_sync rate).1 - rate| ≤ 1 := by
    unfold reset_small_sync
    split_ifs with h1 h2 <;> refine ⟨by omega, by omega, ?_⟩ <;> rw [abs_le] <;>
      constructor <;> omega
  unfold perform_small_sync
  split_ifs with ha hb
  · obtain ⟨ha1, ha2⟩ := ha
    refine ⟨⟨by omega, by omega⟩, by rw [abs_le]; constructor <;> omega, hreset,
      by simp, ?_, ?_⟩
    · intro _ h
      exact absurd h (by omega)
    · intro hd _
      exact absurd hd (by linarith)
  · obtain ⟨hb1, hb2⟩ := hb
    refine ⟨⟨by omega, by omega⟩, by rw [abs_le]; constructor <;> omega, hreset,
      by simp, ?_, ?_⟩
    · intro hd _
      exact absurd hd (by linarith)
    · intro _ h
      exact absurd h (by omega)
  · exact ⟨⟨h0, h2⟩, by simp, hreset, by simp, fun _ _ => rfl, fun _ _ => rfl⟩

/-- C6 witness: at rate level 1 with the follower behind, the nudge speeds
up to level 2 and stays in range. -/
theorem c6_rate_invariant_witness :
    ((0 ≤ (perform_small_sync 1 1).1 ∧ (perform_small_sync 1 1).1 ≤ 2) ∧
    |(perform_small_sync 1 1).1 - 1| ≤ 1 ∧
    (0 ≤ (reset_small_sync 1).1 ∧ (reset_small_sync 1).1 ≤ 2 ∧
      |(reset_small_sync 1).1 - 1| ≤ 1) ∧
    ((perform_small_sync 1 1).2 = [] ↔ (perform_small_sync 1 1).1 = 1) ∧
    ((1:ℚ) < 0 → (1:ℤ) = 0 → perform_small_sync 1 1 = (1, [])) ∧
    ((0:ℚ) < 1 → (1:ℤ) = 2 → perform_small_sync 1 1 = (1, []))) :=
  c6_rate_invariant 1 1 (by decide) (by decide)

/-- C9: `_reset_small_sync` at rate level 0 issues exactly one speed-up
command (`action 2`), at level 2 exactly one slow-down command
(`action 1`), at level 1 no command, and in every case the level is 1
afterward. -/
theorem c9_rate_reset :
    reset_small_sync 0 = (1, [Effect.action 2]) ∧
    reset_small_sync 2 = (1, [Effect.action 1]) ∧
    reset_small_sync 1 = (1, []) ∧
    ∀ r : ℤ, (reset_small_sync r).1 = 1 := by
  refine ⟨by decide, by decide, by decide, fun r => ?_⟩
  unfold reset_small_sync
  split_ifs <;> rfl

/-- The step `sync_step` never touches `paused_until`, `dont_sync_until`,
`deviation`, `duration_match` or the received fields, only appends to the
effect list, and its outcome is one of the five tags of its own branches. -/
lemma sync_step_frame (cfg : Config) (st : Receiver) (now lp p d : ℚ)
    (effs : List Effect) :
    (sync_step cfg st now lp p d effs).1.paused_until = st.paused_until ∧
    (sync_step cfg st now lp p d effs).1.dont_sync_until = st.dont_sync_until ∧
    (sync_step cfg st now lp p d effs).1.deviation = st.deviation ∧
    (sync_step cfg st now lp p d effs).1.duration_match = st.duration_match ∧
    (sync_step cfg st now lp p d effs).2.2 ≠ Outcome.stillPaused ∧
    (sync_step cfg st now lp p d effs).2.2 ≠ Outcome.durationMismatch ∧
    ∃ ex, (sync_step cfg st now lp p d effs).2.1 = effs ++ ex := by
  simp only [sync_step]
  split_ifs <;>
    refine ⟨rfl, rfl, rfl, rfl, by simp, by simp, ?_⟩ <;>
    first
      | exact ⟨_, rfl⟩
      | exact ⟨[], by simp⟩

/-- The effect list out of `sync_step` is the input list, or the input
list followed by the rate-reset or small-sync commands. -/
lemma sync_step_effs_cases (cfg : Config) (st : Receiver) (now lp p d : ℚ)
    (effs : List Effect) :
    (sync_step cfg st now lp p d effs).2.1 = effs ∨
    (sync_step cfg st now lp p d effs).2.1 = effs ++ (reset_small_sync st.rate).2 ∨
    (sync_step cfg st now lp p d effs).2.1
      = effs ++ (perform_small_sync st.deviation st.rate).2 := by
  simp only [sync_step]
  split_ifs <;> simp

/-- Every command `_reset_small_sync` issues is an `action`. -/
lemma reset_effects_action (r : ℤ) (e : Effect)
    (he : e ∈ (reset_small_sync r).2) : ∃ n, e = Effect.action n := by
  unfold reset_small_sync at he
  split_ifs at he <;> simp at he <;> exact ⟨_, he⟩

/-- Every command `_perform_small_sync` issues is an `action`. -/
lemma small_sync_effects_action (dev : ℚ) (r : ℤ) (e : Effect)
    (he : e ∈ (perform_small_sync dev r).2) : ∃ n, e = Effect.action n := by
  unfold perform_small_sync at he
  split_ifs at he <;> simp at he <;> exact ⟨_, he⟩

/-- Every effect `sync_step` appends is an `action`. -/
lemma sync_step_new_effects (cfg : Config) (st : Receiver) (now lp p d : ℚ)
    (effs : List Effect) (e : Effect)
    (he : e ∈ (sync_step cfg st now lp p d effs).2.1) :
    e ∈ effs ∨ ∃ n, e = Effect.action n := by
  rcases sync_step_effs_cases cfg st now lp p d effs with hc | hc | hc <;>
    rw [hc] at he
  · exact Or.inl he
  · rcases List.mem_append.mp he with h | h
    · exact Or.inl h
    · exact Or.inr (reset_effects_action _ _ h)
  · rcases List.mem_append.mp he with h | h
    · exact Or.inl h
    · exact Or.inr (small_sync_effects_action _ _ _ h)

/-- If `sync_step` ends in `synced`, the history was cleared and the rate
change and commands are those of `_perform_small_sync` on the current raw
deviation. -/
lemma sync_step_synced (cfg : Config) (st : Receiver) (now lp p d : ℚ)
    (effs : List Effect) (st' : Receiver) (effs' : List Effect)
    (h : sync_step cfg st now lp p d effs = (st', effs', Outcome.synced)) :
    st'.deviations = [] ∧ st'.deviation = st.deviation ∧
    st'.rate = (perform_small_sync st.deviation st.rate).1 ∧
    effs' = effs ++ (perform_small_sync st.deviation st.rate).2 := by
  simp only [sync_step] at h
  split_ifs at h
  iterate 6 exact absurd (congrArg (fun r => r.2.2) h) (by simp)
  simp only [Prod.ext_iff] at h
  obtain ⟨h1, h2, -⟩ := h
  subst h1
  subst h2
  exact ⟨rfl, rfl, rfl, rfl⟩

/-- Splitting the status toggle out of an appended effect list. -/
lemma mem_toggle (effs : List Effect) (ls c : List Char) (e : Effect)
    (he : e ∈ effs ++ (if ls ≠ c then [Effect.playPause] else [])) :
    e ∈ effs ∨ e = Effect.playPause := by
  rcases List.mem_append.mp he with h | h
  · exact Or.inl h
  · right
    split_ifs at h <;> simp_all

/-- The step `handle_sample` never touches `paused_until` or `dont_sync_until`,
never reports `stillPaused`, and only appends to the effect list. -/
lemma handle_sample_frame (cfg : Config) (st : Receiver) (now lp : ℚ)
    (ls a b c : List Char) (pd? : Option ℚ) (effs : List Effect) :
    (handle_sample cfg st now lp ls a b c pd? effs).1.paused_until = st.paused_until ∧
    (handle_sample cfg st now lp ls a b c pd? effs).1.dont_sync_until = st.dont_sync_until ∧
    (handle_sample cfg st now lp ls a b c pd? effs).2.2 ≠ Outcome.stillPaused ∧
    ∃ ex, (handle_sample cfg st now lp ls a b c pd? effs).2.1 = effs ++ ex := by
  unfold handle_sample
  cases hpa : pyFloat a with
  | none => exact ⟨rfl, rfl, by simp, [], by simp⟩
  | some p =>
    dsimp only
    cases hpb : pyFloat b with
    | none => exact ⟨rfl, rfl, by simp, [], by simp⟩
    | some d =>
      dsimp only
      by_cases hc : c = pausedStr
      · rw [if_pos hc]
        exact ⟨rfl, rfl, by simp, _, rfl⟩
      · rw [if_neg hc]
        cases hdm : st.duration_match with
        | some v =>
          obtain ⟨f1, f2, -, -, f5, -, ex, hex⟩ :=
            sync_step_frame cfg
              { st with
                  received_position := some p
                  received_duration := some d
                  received_status := some c
                  deviation := p - lp
                  duration_match := some v }
              now lp p d (effs ++ (if ls ≠ c then [Effect.playPause] else []))
          exact ⟨f1, f2, f5, _, by rw [hex, List.append_assoc]⟩
        | none =>
          cases pd? with
          | none => exact ⟨rfl, rfl, by simp, _, rfl⟩
          | some pd =>
            dsimp only
            by_cases hdp : ¬ d = pd
            · rw [if_pos hdp]
              exact ⟨rfl, rfl, by simp, _, by rw [List.append_assoc]⟩
            · rw [if_neg hdp]
              obtain ⟨f1, f2, -, -, f5, -, ex, hex⟩ :=
                sync_step_frame cfg
                  { st with
                      received_position := some p
                      received_duration := some d
                      received_status := some c
                      deviation := p - lp
                      duration_match := some true }
                  now lp p d (effs ++ (if ls ≠ c then [Effect.playPause] else []))
              exact ⟨f1, f2, f5, _, by rw [hex, List.append_assoc]⟩

/-- When both numeric fields parse and the leader status is `Paused`,
`handle_sample` records the sample, toggles play/pause when the statuses
differ, and stops: no deviation is computed, no history update, no
correction. -/
lemma handle_sample_leader_paused (cfg : Config) (st : Receiver) (now lp : ℚ)
    (ls a b c : List Char) (pd? : Option ℚ) (effs : List Effect) (p d : ℚ)
    (hpa : pyFloat a = some p) (hpb : pyFloat b = some d) (hc : c = pausedStr) :
    handle_sample cfg st now lp ls a b c pd? effs
      = ({ st with
            received_position := some p
            received_duration := some d
            received_status := some c },
          effs ++ (if ls ≠ c then [Effect.playPause] else []),
          Outcome.leaderPaused) := by
  unfold handle_sample
  rw [hpa]
  dsimp only
  rw [hpb]
  dsimp only
  rw [if_pos hc]

/-- When both numeric fields parse and the statuses differ, the toggle is
commanded right after the sample is recorded: whatever else the tick does,
the effect list is the inherited effects, then the toggle, then the rest. -/
lemma handle_sample_toggle (cfg : Config) (st : Receiver) (now lp : ℚ)
    (ls a b c : List Char) (pd? : Option ℚ) (effs : List Effect) (p d : ℚ)
    (hpa : pyFloat a = some p) (hpb : pyFloat b = some d) (hne : ls ≠ c) :
    ∃ post, (handle_sample cfg st now lp ls a b c pd? effs).2.1
      = effs ++ Effect.playPause :: post := by
  unfold handle_sample
  rw [hpa]
  dsimp only
  rw [hpb]
  dsimp only
  rw [if_pos hne]
  by_cases hc : c = pausedStr
  · rw [if_pos hc]
    exact ⟨[], by simp⟩
  · rw [if_neg hc]
    cases hdm : st.duration_match with
    | some v =>
      obtain ⟨-, -, -, -, -, -, ex, hex⟩ :=
        sync_step_frame cfg
          { st with
              received_position := some p
              received_duration := some d
              received_status := some c
              deviation := p - lp
              duration_match := some v }
          now lp p d (effs ++ [Effect.playPause])
      exact ⟨ex, by rw [hex, List.append_assoc]; rfl⟩
    | none =>
      cases pd? with
      | none => exact ⟨[], by simp⟩
      | some pd =>
        dsimp only
        by_cases hdp : ¬ d = pd
        · rw [if_pos hdp]
          exact ⟨[Effect.reportMismatch], by rw [List.append_assoc]; rfl⟩
        · rw [if_neg hdp]
          obtain ⟨-, -, -, -, -, -, ex, hex⟩ :=
            sync_step_frame cfg
              { st with
                  received_position := some p
                  received_duration := some d
                  received_status := some c
                  deviation := p - lp
                  duration_match := some true }
              now lp p d (effs ++ [Effect.playPause])
          exact ⟨ex, by rw [hex, List.append_assoc]; rfl⟩

/-- If `handle_sample` ends in `durationMismatch`, the mismatch was
reported, `duration_match` is still unset afterwards, and the effects are
the inherited ones, the possible status toggle, and the report — no
correction command. -/
lemma handle_sample_mismatch (cfg : Config) (st : Receiver) (now lp : ℚ)
    (ls a b c : List Char) (pd? : Option ℚ) (effs : List Effect)
    (st' : Receiver) (effs' : List Effect)
    (h : handle_sample cfg st now lp ls a b c pd? effs
      = (st', effs', Outcome.durationMismatch)) :
    st'.duration_match = none ∧
    effs' = (effs ++ (if ls ≠ c then [Effect.playPause] else []))
      ++ [Effect.reportMismatch] := by
  unfold handle_sample at h
  cases hpa : pyFloat a with
  | none =>
    rw [hpa] at h
    exact absurd (congrArg (fun r => r.2.2) h) (by simp)
  | some p =>
    rw [hpa] at h
    dsimp only at h
    cases hpb : pyFloat b with
    | none =>
      rw [hpb] at h
      exact absurd (congrArg (fun r => r.2.2) h) (by simp)
    | some d =>
      rw [hpb] at h
      dsimp only at h
      by_cases hc : c = pausedStr
      · rw [if_pos hc] at h
        exact absurd (congrArg (fun r => r.2.2) h) (by simp)
      · rw [if_neg hc] at h
        cases hdm : st.duration_match with
        | some v =>
          rw [hdm] at h
          dsimp only at h
          obtain ⟨-, -, -, -, -, hne, -⟩ :=
            sync_step_frame cfg
              { st with
                  received_position := some p
                  received_duration := some d
                  received_status := some c
                  deviation := p - lp
                  duration_match := some v }
              now lp p d (effs ++ (if ls ≠ c then [Effect.playPause] else []))
          exact absurd (congrArg (fun r => r.2.2) h) hne
        | none =>
          rw [hdm] at h
          dsimp only at h
          cases pd? with
          | none => exact absurd (congrArg (fun r => r.2.2) h) (by simp)
          | some pd =>
            dsimp only at h
            by_cases hdp : ¬ d = pd
            · rw [if_pos hdp] at h
              simp only [Prod.ext_iff] at h
              obtain ⟨h1, h2, -⟩ := h
              subst h1
              subst h2
              exact ⟨rfl, rfl⟩
            · rw [if_neg hdp] at h
              obtain ⟨-, -, -, -, -, hne, -⟩ :=
                sync_step_frame cfg
                  { st with
                      received_position := some p
                      received_duration := some d
                      received_status := some c
                      deviation := p - lp
                      duration_match := some true }
                  now lp p d (effs ++ (if ls ≠ c then [Effect.playPause] else []))
              exact absurd (congrArg (fun r => r.2.2) h) hne

/-- If `handle_sample` ends in `synced`, it went through `sync_step` on a
state whose rate is unchanged and whose raw deviation is the just-computed
`p - local_pos`, with inherited effects augmented at most by the status
toggle. -/
lemma handle_sample_synced (cfg : Config) (st : Receiver) (now lp : ℚ)
    (ls a b c : List Char) (pd? : Option ℚ) (effs : List Effect)
    (st' : Receiver) (effs' : List Effect)
    (h : handle_sample cfg st now lp ls a b c pd? effs
      = (st', effs', Outcome.synced)) :
    ∃ p st0, st0.rate = st.rate ∧ st0.deviation = p - lp ∧
      ∃ d effs1, sync_step cfg st0 now lp p d effs1 = (st', effs', Outcome.synced) ∧
        ∀ e ∈ effs1, e ∈ effs ∨ e = Effect.playPause := by
  unfold handle_sample at h
  cases hpa : pyFloat a with
  | none =>
    rw [hpa] at h
    exact absurd (congrArg (fun r => r.2.2) h) (by simp)
  | some p =>
    rw [hpa] at h
    dsimp only at h
    cases hpb : pyFloat b with
    | none =>
      rw [hpb] at h
      exact absurd (congrArg (fun r => r.2.2) h) (by simp)
    | some d =>
      rw [hpb] at h
      dsimp only at h
      by_cases hc : c = pausedStr
      · rw [if_pos hc] at h
        exact absurd (congrArg (fun r => r.2.2) h) (by simp)
      · rw [if_neg hc] at h
        cases hdm : st.duration_match with
        | some v =>
          rw [hdm] at h
          dsimp only at h
          exact ⟨p,
            { st with
                received_position := some p
                received_duration := some d
                received_status := some c
                deviation := p - lp
                duration_match := some v },
            rfl, rfl, d, _, h, fun e he => mem_toggle effs ls c e he⟩
        | none =>
          rw [hdm] at h
          dsimp only at h
          cases pd? with
          | none => exact absurd (congrArg (fun r => r.2.2) h) (by simp)
          | some pd =>
            dsimp only at h
            by_cases hdp : ¬ d = pd
            · rw [if_pos hdp] at h
              exact absurd (congrArg (fun r => r.2.2) h) (by simp)
            · rw [if_neg hdp] at h
              exact ⟨p,
                { st with
                    received_position := some p
                    received_duration := some d
                    received_status := some c
                    deviation := p - lp
                    duration_match := some true },
                rfl, rfl, d, _, h, fun e he => mem_toggle effs ls c e he⟩

/-- The step `resume_step` only touches `paused_until` and `dont_sync_until`, and
issues at most the single resume `play` command. -/
lemma resume_step_frame (cfg : Config) (st : Receiver) (now : ℚ) :
    (resume_step cfg st now).1.rate = st.rate ∧
    (resume_step cfg st now).1.deviation = st.deviation ∧
    (resume_step cfg st now).1.deviations = st.deviations ∧
    (resume_step cfg st now).1.median_deviation = st.median_deviation ∧
    (resume_step cfg st now).1.duration_match = st.duration_match ∧
    ((resume_step cfg st now).2 = [] ∨ (resume_step cfg st now).2 = [Effect.play]) := by
  unfold resume_step
  split_ifs <;> simp

/-- A truthy `paused_until` makes `pausedTruthy` true. -/
lemma pausedTruthy_some (st : Receiver) (t : ℚ) (ht : st.paused_until = some t)
    (htz : t ≠ 0) : pausedTruthy st = true := by
  unfold pausedTruthy
  rw [ht]
  simp [htz]

/-- With a truthy `paused_until = some t`, the wait test is `now < t`. -/
lemma pausedWaiting_some (st : Receiver) (now t : ℚ) (ht : st.paused_until = some t)
    (htz : t ≠ 0) : pausedWaiting st now = decide (now < t) := by
  unfold pausedWaiting pausedTruthy
  rw [ht]
  simp [htz]

/-- When `paused_until` is truthy and the wait is over, `resume_step`
clears it, commands `play` and arms the grace window. -/
lemma resume_step_eq_true (cfg : Config) (st : Receiver) (now : ℚ)
    (h : pausedTruthy st = true) :
    resume_step cfg st now
      = ({ st with paused_until := none, dont_sync_until := now + cfg.grace_time },
          [Effect.play]) := by
  unfold resume_step
  rw [h]
  simp

/-- A zero raw deviation makes `_perform_small_sync` a no-op. -/
lemma small_sync_zero (r : ℤ) : perform_small_sync 0 r = (r, []) := by
  unfold perform_small_sync
  simp

/-- One tick with readable local state is exactly one of: still inside the
catch-up pause, no datagram, or `handle_sample` on the (possibly resumed)
state. -/
lemma update_cases (cfg : Config) (st : Receiver) (now : ℚ) (recv : RecvResult)
    (lp : ℚ) (ls : List Char) (pd? : Option ℚ) :
    (pausedWaiting { st with last_measure_time := now } now = true ∧
      update cfg st now recv (some lp) (some ls) pd?
        = ({ st with last_measure_time := now }, [], Outcome.stillPaused)) ∨
    (pausedWaiting { st with last_measure_time := now } now = false ∧
      receive_data recv = none ∧
      update cfg st now recv (some lp) (some ls) pd?
        = ((resume_step cfg { st with last_measure_time := now } now).1,
            (resume_step cfg { st with last_measure_time := now } now).2,
            Outcome.noData)) ∨
    (∃ a b c, pausedWaiting { st with last_measure_time := now } now = false ∧
      receive_data recv = some (a, b, c) ∧
      update cfg st now recv (some lp) (some ls) pd?
        = handle_sample cfg (resume_step cfg { st with last_measure_time := now } now).1
            now lp ls a b c pd?
            (resume_step cfg { st with last_measure_time := now } now).2) := by
  unfold update
  dsimp only
  cases hw : pausedWaiting { st with last_measure_time := now } now with
  | true => exact Or.inl ⟨rfl, by rw [if_pos rfl]⟩
  | false =>
    rw [if_neg (by simp)]
    cases hd : receive_data recv with
    | none => exact Or.inr (Or.inl ⟨rfl, rfl, rfl⟩)
    | some abc => exact Or.inr (Or.inr ⟨abc.1, abc.2.1, abc.2.2, rfl, rfl, rfl⟩)

/-- C1: the failures `_receive_data` itself can see (no datagram, wrong
field count, undecodable bytes) are indeed turned into "no data", but a
datagram with the right field count and a non-numeric position field
reaches `float(data[0])` in `update`, which sits outside any
`try`/`except`: the tick ends in an uncaught `ValueError` instead of
proceeding as if nothing arrived.  The final conjunct shows the crashing
tick from a freshly initialised receiver on `abc%100%Playing`. -/
theorem c1_nonnumeric_crash :
    receive_data (.text ['a', 'b', 'c']) = none ∧
    receive_data (.text ['1', '0', '0']) = none ∧
    receive_data .decodeFailure = none ∧
    receive_data .nothingPending = none ∧
    update defaultConfig initReceiver 100 (.text dgramBadPos)
        (some 5) (some playingStr) (some 100)
      = ({ initReceiver with last_measure_time := 100 }, [],
          Outcome.crashed PyErr.valueError) := by
  refine ⟨rfl, rfl, rfl, rfl, ?_⟩
  decide

/-- C2 counterexample: from a fresh receiver, a tick whose leader duration
(100) differs from the local duration (90) reports the mismatch and stops,
but leaves `duration_match` unset; the very next tick, with the local
duration now matching, reaches the correction step and issues a speed-up
command — synchronization was not permanently suspended, contradicting the
claim that no correction is attempted on any later tick. -/
theorem c2_mismatch_cex :
    (update defaultConfig initReceiver 100 (.text dgramPlaying)
        (some 5) (some playingStr) (some 90)).2
      = ([Effect.reportMismatch], Outcome.durationMismatch) ∧
    (update defaultConfig initReceiver 100 (.text dgramPlaying)
        (some 5) (some playingStr) (some 90)).1.duration_match = none ∧
    (update defaultConfig
        (update defaultConfig initReceiver 100 (.text dgramPlaying)
          (some 5) (some playingStr) (some 90)).1
        101 (.text dgramPlaying) (some 5) (some playingStr) (some 100)).2
      = ([Effect.action 2], Outcome.synced) := by
  decide

/-- C8 counterexample: `if self.paused_until:` uses Python truthiness, so
`paused_until = 0.0` is treated as unset.  With `paused_until = some 0`
and `now = 5 ≥ 0 = paused_until`, the claim requires the engine to clear
`paused_until`, command resume play and set `dont_sync_until = now +
grace_time = 8`; instead the tick skips the whole block: `paused_until`
stays `some 0`, no command is issued and `dont_sync_until` stays 7. -/
theorem c8_truthiness_cex :
    update defaultConfig
        { initReceiver with paused_until := some 0, dont_sync_until := 7 }
        5 .nothingPending (some 1) (some playingStr) none
      = ({ initReceiver with
            paused_until := some 0
            dont_sync_until := 7
            last_measure_time := 5 }, [], Outcome.noData) := by
  decide

/-- C3: after any tick that carries out a correction (the tick reaches the
final correction step, `Outcome.synced` — the only correction ever
performed by a tick, since `_perform_big_sync` is never called from
`update`), the deviation history is empty. -/
theorem c3_history_cleared (cfg : Config) (st : Receiver) (now : ℚ)
    (recv : RecvResult) (lp? : Option ℚ) (ls? : Option (List Char))
    (pd? : Option ℚ) (st' : Receiver) (effs : List Effect)
    (hu : update cfg st now recv lp? ls? pd? = (st', effs, Outcome.synced)) :
    st'.deviations = [] := by
  cases lp? with
  | none => exact absurd (congrArg (fun r => r.2.2) hu) (by simp [update])
  | some lp =>
    cases ls? with
    | none => exact absurd (congrArg (fun r => r.2.2) hu) (by simp [update])
    | some ls =>
      rcases update_cases cfg st now recv lp ls pd? with
        ⟨-, he⟩ | ⟨-, -, he⟩ | ⟨a, b, c, -, -, he⟩
      · rw [he] at hu
        exact absurd (congrArg (fun r => r.2.2) hu) (by simp)
      · rw [he] at hu
        exact absurd (congrArg (fun r => r.2.2) hu) (by simp)
      · rw [he] at hu
        obtain ⟨p, st0, -, -, d, effs1, hs, -⟩ :=
          handle_sample_synced _ _ _ _ _ _ _ _ _ _ _ _ hu
        exact (sync_step_synced _ _ _ _ _ _ _ _ _ hs).1

/-- C3 witness: a concrete tick that reaches the correction step (leader
at 10 s, follower at 5 s, tolerance exceeded) ends with an empty history. -/
theorem c3_history_cleared_witness :
    ((update defaultConfig { initReceiver with duration_match := some true } 101
        (.text dgramPlaying) (some 5) (some playingStr) (some 100)).1).deviations = [] :=
  c3_history_cleared defaultConfig { initReceiver with duration_match := some true } 101
    (.text dgramPlaying) (some 5) (some playingStr) (some 100)
    (update defaultConfig { initReceiver with duration_match := some true } 101
      (.text dgramPlaying) (some 5) (some playingStr) (some 100)).1
    (update defaultConfig { initReceiver with duration_match := some true } 101
      (.text dgramPlaying) (some 5) (some playingStr) (some 100)).2.1
    (by decide)

/-- C10: when a tick reaches the final correction step with the raw
deviation exactly 0 (possible since the dead-band tests the median, not
the raw deviation), the history is still cleared, but no rate command is
issued and the rate level is unchanged. -/
theorem c10_zero_deviation (cfg : Config) (st : Receiver) (now : ℚ)
    (recv : RecvResult) (lp? : Option ℚ) (ls? : Option (List Char))
    (pd? : Option ℚ) (st' : Receiver) (effs : List Effect)
    (hu : update cfg st now recv lp? ls? pd? = (st', effs, Outcome.synced))
    (hdev : st'.deviation = 0) :
    st'.deviations = [] ∧ st'.rate = st.rate ∧ ∀ n, Effect.action n ∉ effs := by
  cases lp? with
  | none => exact absurd (congrArg (fun r => r.2.2) hu) (by simp [update])
  | some lp =>
    cases ls? with
    | none => exact absurd (congrArg (fun r => r.2.2) hu) (by simp [update])
    | some ls =>
      rcases update_cases cfg st now recv lp ls pd? with
        ⟨-, he⟩ | ⟨-, -, he⟩ | ⟨a, b, c, -, -, he⟩
      · rw [he] at hu
        exact absurd (congrArg (fun r => r.2.2) hu) (by simp)
      · rw [he] at hu
        exact absurd (congrArg (fun r => r.2.2) hu) (by simp)
      · rw [he] at hu
        obtain ⟨p, st0, hrate, -, d, effs1, hs, hmem⟩ :=
          handle_sample_synced _ _ _ _ _ _ _ _ _ _ _ _ hu
        obtain ⟨hcl, hdeq, hrq, heff⟩ := sync_step_synced _ _ _ _ _ _ _ _ _ hs
        have hz : st0.deviation = 0 := by rw [← hdeq, hdev]
        rw [hz, small_sync_zero] at hrq heff
        refine ⟨hcl, ?_, ?_⟩
        · rw [hrq, hrate]
          exact (resume_step_frame cfg { st with last_measure_time := now } now).1
        · intro n hn
          rw [heff, List.append_nil] at hn
          rcases hmem _ hn with hin | hin
          · rcases (resume_step_frame cfg { st with last_measure_time := now } now).2.2.2.2.2
              with h0 | h0 <;> rw [h0] at hin <;> simp_all
          · exact Effect.noConfusion hin

/-- C10 witness: history `[5,5,5]` and a fresh sample with deviation 0
(leader and follower both at 10 s): the median 5 exceeds the tolerance, the
correction step runs, the history is cleared, and no command is issued. -/
theorem c10_zero_deviation_witness :
    ((update defaultConfig
        { initReceiver with duration_match := some true, deviations := [5, 5, 5] } 101
        (.text dgramPlaying) (some 10) (some playingStr) (some 100)).1).deviations = [] ∧
    ((update defaultConfig
        { initReceiver with duration_match := some true, deviations := [5, 5, 5] } 101
        (.text dgramPlaying) (some 10) (some playingStr) (some 100)).1).rate
      = ({ initReceiver with duration_match := some true, deviations := [5, 5, 5] }
          : Receiver).rate ∧
    ∀ n, Effect.action n ∉ (update defaultConfig
        { initReceiver with duration_match := some true, deviations := [5, 5, 5] } 101
        (.text dgramPlaying) (some 10) (some playingStr) (some 100)).2.1 :=
  c10_zero_deviation defaultConfig
    { initReceiver with duration_match := some true, deviations := [5, 5, 5] } 101
    (.text dgramPlaying) (some 10) (some playingStr) (some 100)
    (update defaultConfig
      { initReceiver with duration_match := some true, deviations := [5, 5, 5] } 101
      (.text dgramPlaying) (some 10) (some playingStr) (some 100)).1
    (update defaultConfig
      { initReceiver with duration_match := some true, deviations := [5, 5, 5] } 101
      (.text dgramPlaying) (some 10) (some playingStr) (some 100)).2.1
    (by decide) (by decide)

/-- C2 (amended): a tick that ends at the duration check with differing
durations reports the mismatch, performs no correction, and leaves
`duration_match` unset — so the check repeats on later ticks and a later
matching duration re-enables synchronization (the suspension is not
permanent and the report not once-only; see the counterexample). -/
theorem c2_mismatch_amended (cfg : Config) (st : Receiver) (now : ℚ)
    (recv : RecvResult) (lp? : Option ℚ) (ls? : Option (List Char))
    (pd? : Option ℚ) (st' : Receiver) (effs : List Effect)
    (hu : update cfg st now recv lp? ls? pd? = (st', effs, Outcome.durationMismatch)) :
    Effect.reportMismatch ∈ effs ∧ st'.duration_match = none ∧
    ∀ e ∈ effs, e = Effect.play ∨ e = Effect.playPause ∨ e = Effect.reportMismatch := by
  cases lp? with
  | none => exact absurd (congrArg (fun r => r.2.2) hu) (by simp [update])
  | some lp =>
    cases ls? with
    | none => exact absurd (congrArg (fun r => r.2.2) hu) (by simp [update])
    | some ls =>
      rcases update_cases cfg st now recv lp ls pd? with
        ⟨-, he⟩ | ⟨-, -, he⟩ | ⟨a, b, c, -, -, he⟩
      · rw [he] at hu
        exact absurd (congrArg (fun r => r.2.2) hu) (by simp)
      · rw [he] at hu
        exact absurd (congrArg (fun r => r.2.2) hu) (by simp)
      · rw [he] at hu
        obtain ⟨hdm, heff⟩ := handle_sample_mismatch _ _ _ _ _ _ _ _ _ _ _ _ hu
        refine ⟨by rw [heff]; simp, hdm, ?_⟩
        intro e hee
        rw [heff] at hee
        rcases List.mem_append.mp hee with hee | hee
        · rcases mem_toggle _ _ _ _ hee with hee | hee
          · rcases (resume_step_frame cfg { st with last_measure_time := now } now).2.2.2.2.2
              with h0 | h0 <;> rw [h0] at hee <;> simp_all
          · exact Or.inr (Or.inl hee)
        · simp only [List.mem_singleton] at hee
          exact Or.inr (Or.inr hee)

/-- C2 witness for the amended claim: the concrete mismatch tick (leader
duration 100, local duration 90) reports and leaves `duration_match`
unset. -/
theorem c2_mismatch_witness :
    Effect.reportMismatch ∈ (update defaultConfig initReceiver 100 (.text dgramPlaying)
      (some 5) (some playingStr) (some 90)).2.1 ∧
    (update defaultConfig initReceiver 100 (.text dgramPlaying)
      (some 5) (some playingStr) (some 90)).1.duration_match = none :=
  ⟨(c2_mismatch_amended defaultConfig initReceiver 100 (.text dgramPlaying)
      (some 5) (some playingStr) (some 90)
      (update defaultConfig initReceiver 100 (.text dgramPlaying)
        (some 5) (some playingStr) (some 90)).1
      (update defaultConfig initReceiver 100 (.text dgramPlaying)
        (some 5) (some playingStr) (some 90)).2.1
      (by decide)).1,
    (c2_mismatch_amended defaultConfig initReceiver 100 (.text dgramPlaying)
      (some 5) (some playingStr) (some 90)
      (update defaultConfig initReceiver 100 (.text dgramPlaying)
        (some 5) (some playingStr) (some 90)).1
      (update defaultConfig initReceiver 100 (.text dgramPlaying)
        (some 5) (some playingStr) (some 90)).2.1
      (by decide)).2.1⟩

/-- C7: on a tick that consumes a fresh, parseable sample (local state
readable and the tick not still inside a catch-up wait), a status
difference is answered by a play/pause toggle before any drift command
(everything before the toggle is at most the resume `play`); and if the
leader status is `Paused` the tick stops there: no deviation is computed,
no history update, no correction. -/
theorem c7_status_priority (cfg : Config) (st : Receiver) (now lp : ℚ)
    (recv : RecvResult) (ls : List Char) (pd? : Option ℚ)
    (a b c : List Char) (p d : ℚ)
    (st' : Receiver) (effs : List Effect) (out : Outcome)
    (hr : receive_data recv = some (a, b, c))
    (hp : pyFloat a = some p) (hd : pyFloat b = some d)
    (hw : pausedWaiting { st with last_measure_time := now } now = false)
    (hu : update cfg st now recv (some lp) (some ls) pd? = (st', effs, out)) :
    (ls ≠ c → ∃ pre post, effs = pre ++ Effect.playPause :: post ∧
      ∀ e ∈ pre, e = Effect.play) ∧
    (c = pausedStr → out = Outcome.leaderPaused ∧
      st'.deviation = st.deviation ∧ st'.deviations = st.deviations ∧
      st'.median_deviation = st.median_deviation ∧
      st'.duration_match = st.duration_match ∧ st'.rate = st.rate ∧
      ∀ e ∈ effs, e = Effect.play ∨ e = Effect.playPause) := by
  rcases update_cases cfg st now recv lp ls pd? with
    ⟨hw2, -⟩ | ⟨-, hd2, -⟩ | ⟨a2, b2, c2, -, hd2, he⟩
  · rw [hw] at hw2
    exact absurd hw2 (by simp)
  · rw [hr] at hd2
    exact absurd hd2 (by simp)
  · rw [hr] at hd2
    injection hd2 with hd3
    obtain ⟨ha, hb, hc3⟩ : a = a2 ∧ b = b2 ∧ c = c2 := by
      have h1 := congrArg Prod.fst hd3
      have h2 := congrArg (fun r => r.2.1) hd3
      have h3 := congrArg (fun r => r.2.2) hd3
      exact ⟨h1, h2, h3⟩
    subst ha; subst hb; subst hc3
    rw [he] at hu
    constructor
    · intro hne
      obtain ⟨post, hpost⟩ :=
        handle_sample_toggle cfg _ now lp ls a b c pd? _ p d hp hd hne
      refine ⟨(resume_step cfg { st with last_measure_time := now } now).2, post, ?_, ?_⟩
      · rw [← hpost, hu]
      · intro e hee
        rcases (resume_step_frame cfg { st with last_measure_time := now } now).2.2.2.2.2
          with h0 | h0 <;> rw [h0] at hee <;> simp_all
    · intro hc
      rw [handle_sample_leader_paused cfg _ now lp ls a b c pd? _ p d hp hd hc] at hu
      have h1 : _ = st' := congrArg (fun r => r.1) hu
      have h2 : _ = effs := congrArg (fun r => r.2.1) hu
      have h3 : _ = out := congrArg (fun r => r.2.2) hu
      subst h1; subst h2; subst h3
      obtain ⟨f1, f2, f3, f4, f5, -⟩ :=
        resume_step_frame cfg { st with last_measure_time := now } now
      refine ⟨rfl, f2, f3, f4, f5, f1, ?_⟩
      intro e hee
      rcases mem_toggle _ _ _ _ hee with hee | hee
      · rcases (resume_step_frame cfg { st with last_measure_time := now } now).2.2.2.2.2
          with h0 | h0 <;> rw [h0] at hee <;> simp_all
      · exact Or.inr hee

/-- C7 witness: leader `Paused`, local `Playing`: the tick's only effect
is the toggle and it stops at the leader-paused exit. -/
theorem c7_status_priority_witness :
    (∃ pre post,
      (update defaultConfig initReceiver 100 (.text dgramPaused)
        (some 5) (some playingStr) (some 100)).2.1 = pre ++ Effect.playPause :: post ∧
      ∀ e ∈ pre, e = Effect.play) ∧
    (update defaultConfig initReceiver 100 (.text dgramPaused)
      (some 5) (some playingStr) (some 100)).2.2 = Outcome.leaderPaused := by
  have h := c7_status_priority defaultConfig initReceiver 100 5 (.text dgramPaused)
    playingStr (some 100) ['1', '0'] ['1', '0', '0'] pausedStr 10 100 _ _ _
    (by decide) (by decide) (by decide) (by decide) rfl
  exact ⟨h.1 (by decide), (h.2 rfl).1⟩

/-- C8 (amended): if `paused_until` is set to a nonzero timestamp at the
start of a tick (with local state readable): while `now < paused_until`
the tick does nothing further; once `now ≥ paused_until` the engine clears
`paused_until`, commands resume play first, sets `dont_sync_until = now +
grace_time`, and goes on with the tick.  A `paused_until` of exactly 0 is
falsy in Python and is treated as unset (see the counterexample). -/
theorem c8_paused_amended (cfg : Config) (st : Receiver) (now t lp : ℚ)
    (recv : RecvResult) (ls : List Char) (pd? : Option ℚ)
    (st' : Receiver) (effs : List Effect) (out : Outcome)
    (ht : st.paused_until = some t) (htz : t ≠ 0)
    (hu : update cfg st now recv (some lp) (some ls) pd? = (st', effs, out)) :
    (now < t → st' = { st with last_measure_time := now } ∧ effs = [] ∧
      out = Outcome.stillPaused) ∧
    (¬ now < t → st'.paused_until = none ∧
      st'.dont_sync_until = now + cfg.grace_time ∧
      effs.head? = some Effect.play ∧ out ≠ Outcome.stillPaused) := by
  have ht1 : ({ st with last_measure_time := now } : Receiver).paused_until = some t := ht
  have hpw : pausedWaiting { st with last_measure_time := now } now = decide (now < t) :=
    pausedWaiting_some _ now t ht1 htz
  have hpt : pausedTruthy { st with last_measure_time := now } = true :=
    pausedTruthy_some _ t ht1 htz
  have hres := resume_step_eq_true cfg { st with last_measure_time := now } now hpt
  constructor
  · intro hlt
    rcases update_cases cfg st now recv lp ls pd? with
      ⟨-, he⟩ | ⟨hw, -, -⟩ | ⟨a, b, c, hw, -, -⟩
    · rw [he] at hu
      have h1 : _ = st' := congrArg (fun r => r.1) hu
      have h2 : _ = effs := congrArg (fun r => r.2.1) hu
      have h3 : _ = out := congrArg (fun r => r.2.2) hu
      exact ⟨h1.symm, h2.symm, h3.symm⟩
    · rw [hpw] at hw
      simp [hlt] at hw
    · rw [hpw] at hw
      simp [hlt] at hw
  · intro hge
    rcases update_cases cfg st now recv lp ls pd? with
      ⟨hw, -⟩ | ⟨-, -, he⟩ | ⟨a, b, c, -, -, he⟩
    · rw [hpw] at hw
      simp [hge] at hw
    · rw [hres] at he
      rw [he] at hu
      have h1 : _ = st' := congrArg (fun r => r.1) hu
      have h2 : _ = effs := congrArg (fun r => r.2.1) hu
      have h3 : _ = out := congrArg (fun r => r.2.2) hu
      subst h1; subst h2; subst h3
      exact ⟨rfl, rfl, rfl, by simp⟩
    · rw [hres] at he
      rw [he] at hu
      obtain ⟨f1, f2, f3, ex, hex⟩ := handle_sample_frame cfg
        { st with
            last_measure_time := now
            paused_until := none
            dont_sync_until := now + cfg.grace_time }
        now lp ls a b c pd? [Effect.play]
      rw [hu] at f1 f2 f3 hex
      have hex2 : effs = Effect.play :: ex := hex
      refine ⟨f1, f2, ?_, f3⟩
      rw [hex2]
      rfl

/-- C8 witness for the amended claim: `paused_until = 2`, `now = 5`: the
tick clears the pause, commands `play` first, and arms the grace window
until 8. -/
theorem c8_paused_witness :
    (update defaultConfig { initReceiver with paused_until := some 2 } 5 .nothingPending
      (some 1) (some playingStr) none).1.paused_until = none ∧
    (update defaultConfig { initReceiver with paused_until := some 2 } 5 .nothingPending
      (some 1) (some playingStr) none).1.dont_sync_until = 5 + defaultConfig.grace_time ∧
    (update defaultConfig { initReceiver with paused_until := some 2 } 5 .nothingPending
      (some 1) (some playingStr) none).2.1.head? = some Effect.play ∧
    (update defaultConfig { initReceiver with paused_until := some 2 } 5 .nothingPending
      (some 1) (some playingStr) none).2.2 ≠ Outcome.stillPaused :=
  (c8_paused_amended defaultConfig { initReceiver with paused_until := some 2 }
    5 2 1 .nothingPending playingStr none _ _ _ rfl (by decide) rfl).2 (by decide)

end Claims

end OmxSync
